import Mathlib

/-!
Verification development for the diary application's analytics and
filtering engine (`src/main.ts`, final snapshot: the `DiaryApp` class
with mood, statistics and streak features).

Modelling conventions, fixed once for the whole file:

* A JavaScript time value (`Date`) is an integer count of milliseconds
  since the Unix epoch (`Int`).  A calendar-day key (the
  `toISOString().split('T')[0]` string used by the source) is the epoch
  day number `⌊t / 86400000⌋ : Int`; lexicographic order on those ISO
  strings agrees with numeric order on the day numbers for the
  application's date range.
* The runtime timezone is modelled as UTC, so `new Date(y, m, d)` (local
  midnight) and the UTC day of `toISOString` coincide.
* Every `new Date()` read of the clock inside one computation is modelled
  as a single explicit `now : Int` argument.
* Generic `new Date(string)` parsing is modelled on the ISO date-only
  profile `YYYY-MM-DD` (the timestamp form the specification names for
  persisted data); all other strings are modelled as invalid dates.
* JavaScript `toLowerCase` is modelled per character on ASCII letters.
-/

/-- Milliseconds in one calendar day. -/
def msPerDay : Int := 86400000

/-- The `T23:59:59` offset used for the inclusive upper date bound. -/
def endOfDayMs : Int := 86399000

/-- Epoch day number of an instant: the calendar-day key the source
obtains from `toISOString().split('T')[0]`. -/
def msDay (t : Int) : Int := Int.fdiv t msPerDay

/-- Proleptic Gregorian leap-year test, as used by ECMAScript dates. -/
def isLeapYear (y : Int) : Bool :=
  (Int.emod y 4 = 0 && Int.emod y 100 ≠ 0) || Int.emod y 400 = 0

/-- Number of days in a month (month is 1-based). -/
def daysInMonth (y m : Int) : Int :=
  if m = 2 then (if isLeapYear y then 29 else 28)
  else if m = 4 ∨ m = 6 ∨ m = 9 ∨ m = 11 then 30
  else 31

/-- Epoch day number of a civil date (proleptic Gregorian, month 1..12).
The day component is applied as a linear offset, which matches the
ECMAScript `MakeDay` overflow behaviour for out-of-range days. -/
def daysFromCivil (y m d : Int) : Int :=
  let y2 := if m ≤ 2 then y - 1 else y
  let era := Int.fdiv y2 400
  let yoe := y2 - era * 400
  let mp := Int.emod (m + 9) 12
  let doy := Int.fdiv (153 * mp + 2) 5 + d - 1
  let doe := yoe * 365 + Int.fdiv yoe 4 - Int.fdiv yoe 100 + doy
  era * 146097 + doe - 719468

/-- Epoch day of `new Date(year, month, day)` (month 0-based, arbitrary
integers).  Months overflow into years as in `MakeDay`, and years 0..99
are mapped to 1900..1999 as the `Date` constructor does. -/
def jsMakeDate (year month day : Int) : Int :=
  let yr := if 0 ≤ year ∧ year ≤ 99 then 1900 + year else year
  let ym := yr + Int.fdiv month 12
  let mn := Int.emod month 12
  daysFromCivil ym (mn + 1) day

/-- Numeric value of a decimal digit character. -/
def digitVal (c : Char) : Nat := c.toNat - '0'.toNat

/-- Matcher for the `\d{1,2}` groups of the localized date pattern,
immediately followed by the separator character `sep`.  Greedily takes
two digits, backtracking to one, exactly as the regular expression
`\d{1,2}月` / `\d{1,2}日` does. -/
def matchNumSep (sep : Char) : List Char → Option (Nat × List Char)
  | a :: b :: rest =>
    if a.isDigit then
      if b.isDigit then
        match rest with
        | s :: rest2 =>
          if s = sep then some (10 * digitVal a + digitVal b, rest2) else none
        | [] => none
      else if b = sep then some (digitVal a, rest)
      else none
    else none
  | _ => none

/-- Attempt to match `(\d{4})年(\d{1,2})月(\d{1,2})日` at the head of the
character list, returning the captured year, month and day. -/
def matchJpAt (cs : List Char) : Option (Int × Int × Int) :=
  match cs with
  | c1 :: c2 :: c3 :: c4 :: c5 :: rest =>
    if c1.isDigit && c2.isDigit && c3.isDigit && c4.isDigit && c5 = '年' then
      match matchNumSep '月' rest with
      | some (m, rest2) =>
        match matchNumSep '日' rest2 with
        | some (d, _) =>
          some ((1000 * digitVal c1 + 100 * digitVal c2 + 10 * digitVal c3
            + digitVal c4 : Nat), (m : Int), (d : Int))
        | none => none
      | none => none
    else none
  | _ => none

/-- First match of the localized date pattern anywhere in the string, as
`String.prototype.match` finds it (leftmost position first). -/
def findJpMatch : List Char → Option (Int × Int × Int)
  | [] => none
  | c :: cs =>
    match matchJpAt (c :: cs) with
    | some r => some r
    | none => findJpMatch cs

/-- Embedding of `parseJapaneseDate` (src/main.ts:393-402).  On a match
it builds `new Date(year, month - 1, day)`; when the pattern does not
match it returns `new Date()`, i.e. the current instant `now`. -/
def parseJapaneseDate (now : Int) (s : String) : Int :=
  match findJpMatch s.data with
  | some (y, m, d) => jsMakeDate y (m - 1) d * msPerDay
  | none => now

/-- Embedding of generic `new Date(string)` parsing on the ISO date-only
profile `YYYY-MM-DD`; out-of-range fields and every other shape are
modelled as an invalid date (`none`). -/
def jsParseDate (s : String) : Option Int :=
  match s.data with
  | [y1, y2, y3, y4, '-', m1, m2, '-', d1, d2] =>
    if y1.isDigit && y2.isDigit && y3.isDigit && y4.isDigit
        && m1.isDigit && m2.isDigit && d1.isDigit && d2.isDigit then
      let y : Int := (1000 * digitVal y1 + 100 * digitVal y2
        + 10 * digitVal y3 + digitVal y4 : Nat)
      let m : Int := (10 * digitVal m1 + digitVal m2 : Nat)
      let d : Int := (10 * digitVal d1 + digitVal d2 : Nat)
      if 1 ≤ m ∧ m ≤ 12 ∧ 1 ≤ d ∧ d ≤ daysInMonth y m then
        some (daysFromCivil y m d * msPerDay)
      else none
    else none
  | _ => none

/-- The check `entry.date.includes('年') && includes('月') && includes('日')`
used by the statistics functions to choose the parsing branch. -/
def hasJpMarkers (s : String) : Bool :=
  s.data.contains '年' && s.data.contains '月' && s.data.contains '日'

/-- Shared date-normalization step of `getPostFrequencyStats`,
`getCharacterTrends` and `getContinuousDaysStats`: the localized branch
(never an invalid date, because of the `new Date()` fallback), otherwise
a generic parse whose invalid results are discarded by the `isNaN`
check. -/
def entryDateMs (now : Int) (s : String) : Option Int :=
  if hasJpMarkers s then some (parseJapaneseDate now s) else jsParseDate s

/-- Modelled from the spec: the `normalize` contract of §4.1
(DateNormalizer), which the source does not implement as such — it must
return an explicit unparseable signal (`none`) instead of the source's
fallback to the current instant.  Localized long form first, then a
generic timestamp parse, else unparseable.  Result is the canonical
epoch day. -/
def specNormalize (s : String) : Option Int :=
  match findJpMatch s.data with
  | some (y, m, d) => some (jsMakeDate y (m - 1) d)
  | none => (jsParseDate s).map msDay

/-- A diary entry as the engine reads it (src/main.ts:18-26).  The
`images` and `attachments` fields are passed through untouched by every
engine function and are omitted from the model. -/
structure DiaryEntry where
  id : String
  title : String
  content : String
  date : String
  mood : Option Int
deriving DecidableEq

/-- Character-wise `toLowerCase` (ASCII letters). -/
def lowerChars (l : List Char) : List Char := l.map Char.toLower

/-- JavaScript `String.prototype.trim` on ASCII whitespace. -/
def isWsChar (c : Char) : Bool := c = ' ' || c = '\t' || c = '\n' || c = '\r'

/-- Trim leading and trailing whitespace. -/
def trimChars (l : List Char) : List Char :=
  ((l.dropWhile isWsChar).reverse.dropWhile isWsChar).reverse

/-- Boolean test that `needle` occurs at the head of `hay`. -/
def isPrefixB : List Char → List Char → Bool
  | [], _ => true
  | _ :: _, [] => false
  | a :: as, b :: bs => a = b && isPrefixB as bs

/-- JavaScript `String.prototype.includes`: contiguous substring test. -/
def containsSub : List Char → List Char → Bool
  | needle, [] => needle.isEmpty
  | needle, c :: rest => isPrefixB needle (c :: rest) || containsSub needle rest

/-- Result shape of the filter: the filtered entries plus the counts
shown by `updateSearchResultsCount` (filtered length / total length). -/
structure FilterResult where
  results : List DiaryEntry
  matchCount : Nat
  totalCount : Nat
deriving DecidableEq

/-- The predicate of `entries.filter` inside `applyFilters`
(src/main.ts:375-387).  `searchTerm` is the already lowercased and
trimmed keyword; `dateFrom`/`dateTo` are the epoch days of the two date
inputs, `none` when the input is empty.  Note the entry date is obtained
from `parseJapaneseDate` alone, with its fallback to `now`. -/
def entryMatchesFilter (now : Int) (searchTerm : List Char)
    (dateFrom dateTo : Option Int) (e : DiaryEntry) : Bool :=
  let matchesSearch := searchTerm.isEmpty
    || containsSub searchTerm (lowerChars e.title.data)
    || containsSub searchTerm (lowerChars e.content.data)
  let entryDate := parseJapaneseDate now e.date
  let matchesDateFrom :=
    match dateFrom with
    | none => true
    | some d => decide (d * msPerDay ≤ entryDate)
  let matchesToDate :=
    match dateTo with
    | none => true
    | some d => decide (entryDate ≤ d * msPerDay + endOfDayMs)
  matchesSearch && matchesDateFrom && matchesToDate

/-- Embedding of `applyFilters` (src/main.ts:368-391) together with the
counts of `updateSearchResultsCount`.  The raw search input is lowercased
and trimmed first, as in the source. -/
def applyFilters (entries : List DiaryEntry) (searchInput : String)
    (dateFrom dateTo : Option Int) (now : Int) : FilterResult :=
  let searchTerm := trimChars (lowerChars searchInput.data)
  let fe := entries.filter (entryMatchesFilter now searchTerm dateFrom dateTo)
  ⟨fe, fe.length, entries.length⟩

/-- Mood statistics result (src/main.ts:816-826): per-rating counts as
the association list the mood-count object holds, the number of rated
entries, and the weighted average. -/
structure MoodStats where
  counts : List (Int × Nat)
  total : Nat
  average : ℚ

/-- `moodCounts[mood] = (moodCounts[mood] || 0) + 1`: bump the count of a
key in the association list, appending the key when absent. -/
def bumpKey : List (Int × Nat) → Int → List (Int × Nat)
  | [], m => [(m, 1)]
  | (k, c) :: rest, m =>
    if k = m then (k, c + 1) :: rest else (k, c) :: bumpKey rest m

/-- Sum of the products rating × count over the association list, the
`reduce` of src/main.ts:821-824. -/
def sumProducts (l : List (Int × Nat)) : Int :=
  (l.map (fun kc => kc.1 * (kc.2 : Int))).sum

/-- Sum of the counts of the association list. -/
def sumCounts (l : List (Int × Nat)) : Nat := (l.map Prod.snd).sum

/-- Body of the `forEach` of `getMoodStats` (src/main.ts:809-814): the
truthiness test `if (entry.mood)` skips absent moods and a mood of 0. -/
def moodStep (acc : List (Int × Nat) × Nat) (e : DiaryEntry) :
    List (Int × Nat) × Nat :=
  match e.mood with
  | some m => if m = 0 then acc else (bumpKey acc.1 m, acc.2 + 1)
  | none => acc

/-- Embedding of `getMoodStats` (src/main.ts:805-827). -/
def getMoodStats (entries : List DiaryEntry) : MoodStats :=
  let cs := entries.foldl moodStep ([], 0)
  { counts := cs.1
    total := cs.2
    average :=
      if 0 < cs.2 then (sumProducts cs.1 : ℚ) / (cs.2 : ℚ) else 0 }

/-- Decidable form of the data-model invariant that a rated mood lies in
1..5 (spec §3); absent moods satisfy it vacuously. -/
def moodInRange (e : DiaryEntry) : Bool :=
  match e.mood with
  | some m => decide (1 ≤ m ∧ m ≤ 5)
  | none => true

/-- Posting-frequency statistics (src/main.ts:892-901).  The weekly and
monthly re-keying of the same bucket counts is not referenced by any
claim and is not modelled. -/
structure FrequencyStats where
  daily : List (Int × Nat)
  totalPosts : Nat
  averagePerDay : ℚ

/-- The 31 day keys of the trailing window (src/main.ts:836-840):
`thirtyDaysAgo + i` days for `i = 0..30`, each taken to its ISO day. -/
def windowDaysList (now : Int) : List Int :=
  (List.range 31).map
    (fun i : Nat => msDay (now - 30 * msPerDay + (i : Int) * msPerDay))

/-- `if (frequencyData.hasOwnProperty(dateStr)) frequencyData[dateStr]++`:
bump an existing key, leave the list unchanged when the key is absent. -/
def bumpExisting : List (Int × Nat) → Int → List (Int × Nat)
  | [], _ => []
  | (k, c) :: rest, d =>
    if k = d then (k, c + 1) :: rest else (k, c) :: bumpExisting rest d

/-- Embedding of `getPostFrequencyStats` (src/main.ts:830-902): zeroed
buckets for the trailing 31 days, one increment per entry whose
normalized day hits a bucket, `totalPosts` over all entries, and
`averagePerDay` dividing by the number of bucket keys. -/
def getPostFrequencyStats (now : Int) (entries : List DiaryEntry) :
    FrequencyStats :=
  let init := (windowDaysList now).map (fun k => (k, 0))
  let daily := entries.foldl (fun acc e =>
    match entryDateMs now e.date with
    | some t => bumpExisting acc (msDay t)
    | none => acc) init
  { daily := daily
    totalPosts := entries.length
    averagePerDay :=
      if 0 < entries.length then (entries.length : ℚ) / (daily.length : ℚ)
      else 0 }

/-- Count stored for a day key in a bucket list (0 when absent). -/
def lookupCount : List (Int × Nat) → Int → Nat
  | [], _ => 0
  | (k, c) :: rest, d => if k = d then c else lookupCount rest d

/-- One point of the character-count trend series (src/main.ts:917). -/
structure TrendPoint where
  date : String
  count : Nat
  title : String
deriving DecidableEq

/-- Character-trend statistics (src/main.ts:981-988). -/
structure CharacterTrendStats where
  trends : List TrendPoint
  averageCharCount : Int
  maxCharCount : Nat
  minCharCount : Nat
  recentAverage : Int
  totalEntries : Nat

/-- JavaScript `Math.round`: round half toward positive infinity. -/
def jsRound (q : ℚ) : Int := ⌊q + 1 / 2⌋

/-- Stable insertion of an entry after all entries of smaller or equal
sort key. -/
def insertByKey (key : DiaryEntry → Int) (x : DiaryEntry) :
    List DiaryEntry → List DiaryEntry
  | [] => [x]
  | y :: ys => if key y ≤ key x then y :: insertByKey key x ys else x :: y :: ys

/-- Stable sort by an integer key, modelling `Array.prototype.sort` with
the numeric time-value comparator of src/main.ts:938-953. -/
def sortByKey (key : DiaryEntry → Int) (l : List DiaryEntry) : List DiaryEntry :=
  l.foldl (fun acc x => insertByKey key x acc) []

/-- The filter-and-sort pipeline of `getCharacterTrends`
(src/main.ts:919-953): keep entries whose date normalizes (the localized
branch never fails thanks to the fallback), then sort ascending by the
normalized time value. -/
def sortedValid (now : Int) (entries : List DiaryEntry) : List DiaryEntry :=
  sortByKey (fun e => (entryDateMs now e.date).getD 0)
    (entries.filter (fun e => (entryDateMs now e.date).isSome))

/-- The character-count series before aggregation: the sorted valid
entries mapped to date, `title.length + content.length` and title
(src/main.ts:954-962). -/
def trendPoints (now : Int) (entries : List DiaryEntry) : List TrendPoint :=
  (sortedValid now entries).map
    (fun e => ⟨e.date, e.title.length + e.content.length, e.title⟩)

/-- Embedding of `getCharacterTrends` (src/main.ts:916-989).  Character
counts use the length of the stored strings; `average` and the last-7
`recentAverage` are rounded with `Math.round`. -/
def getCharacterTrends (now : Int) (entries : List DiaryEntry) :
    CharacterTrendStats :=
  let trends := trendPoints now entries
  let counts : List Nat := trends.map (fun t => t.count)
  let avg : ℚ := if 0 < counts.length then (counts.sum : ℚ) / counts.length else 0
  let recent := trends.drop (trends.length - 7)
  let recentCounts : List Nat := recent.map (fun t => t.count)
  let recentAvg : ℚ :=
    if 0 < recentCounts.length then (recentCounts.sum : ℚ) / recentCounts.length
    else 0
  { trends := trends
    averageCharCount := jsRound avg
    maxCharCount := counts.foldl max 0
    minCharCount :=
      match counts with
      | [] => 0
      | c :: rest => rest.foldl min c
    recentAverage := jsRound recentAvg
    totalEntries := trends.length }

/-- Streak statistics (src/main.ts:1097-1103).  The last-post day and
streak start are epoch days standing for the stored ISO day strings. -/
structure StreakStats where
  currentStreak : Nat
  maxStreak : Nat
  lastPostDate : Option Int
  streakStartDate : Option Int
  totalDaysPosted : Nat
deriving DecidableEq

/-- Stable insertion for integer day keys. -/
def insertInt (x : Int) : List Int → List Int
  | [] => [x]
  | y :: ys => if y ≤ x then y :: insertInt x ys else x :: y :: ys

/-- Ascending sort of day keys: `Array.prototype.sort()` on ISO day
strings is lexicographic, which coincides with numeric order on the
application's day range. -/
def sortInts (l : List Int) : List Int :=
  l.foldl (fun acc x => insertInt x acc) []

/-- The unique sorted posting days of `getContinuousDaysStats`
(src/main.ts:1004-1029): normalized day of every entry with a usable
date, deduplicated and sorted ascending. -/
def uniqueDays (now : Int) (entries : List DiaryEntry) : List Int :=
  sortInts ((entries.filterMap (fun e => (entryDateMs now e.date).map msDay)).dedup)

/-- The forward scan of src/main.ts:1045-1059 over the sorted unique
days: `cur` is the length of the run in progress, `mx` the best finished
run; a one-day gap extends the run, anything else closes it. -/
def streakScan : Int → Nat → Nat → List Int → Nat × Nat
  | _, cur, mx, [] => (cur, mx)
  | prev, cur, mx, d :: rest =>
    if d - prev = 1 then streakScan d (cur + 1) mx rest
    else streakScan d 1 (max mx cur) rest

/-- Longest run of consecutive days, including the final
`if (currentStreak > maxStreak)` flush (src/main.ts:1062-1064). -/
def computeMaxStreak : List Int → Nat
  | [] => 0
  | d :: rest =>
    max (streakScan d 1 0 rest).2 (streakScan d 1 0 rest).1

/-- The backward walk of src/main.ts:1079-1094 from the last posted day
through the earlier unique days (given in descending order): returns the
active streak length and its starting day. -/
def backWalkFrom : Int → List Int → Nat × Int
  | last, [] => (1, last)
  | last, d :: rest =>
    if last - d = 1 then
      let r := backWalkFrom d rest
      (r.1 + 1, r.2)
    else (1, last)

/-- Core of `getContinuousDaysStats` once the unique sorted day list is
built: empty list means all-zero stats; otherwise the max streak comes
from the forward scan, and the current streak is computed only when the
last posted day is today or yesterday. -/
def streakFromDays (now : Int) (ud : List Int) : StreakStats :=
  match ud.reverse with
  | [] => ⟨0, 0, none, none, 0⟩
  | last :: revRest =>
    let alive := last = msDay now ∨ last = msDay (now - msPerDay)
    let walk := backWalkFrom last revRest
    { currentStreak := if alive then walk.1 else 0
      maxStreak := computeMaxStreak ud
      lastPostDate := some last
      streakStartDate := if alive then some walk.2 else none
      totalDaysPosted := ud.length }

/-- Embedding of `getContinuousDaysStats` (src/main.ts:992-1104). -/
def getContinuousDaysStats (now : Int) (entries : List DiaryEntry) :
    StreakStats :=
  if entries.isEmpty then ⟨0, 0, none, none, 0⟩
  else streakFromDays now (uniqueDays now entries)

/-- One segment of the highlighted rendering: a text node or a `<mark>`
element (src/main.ts:619-628). -/
structure Segment where
  text : String
  isMatch : Bool
deriving DecidableEq

/-- Structural validity scan for an ECMAScript regular-expression
pattern: group parentheses must balance, character classes must close,
and a trailing backslash is invalid.  This is a necessary condition for
`new RegExp` to succeed; causes of SyntaxError not modelled here (such
as misplaced quantifiers) only make the real constructor fail more
often. -/
def regexScan : List Char → Nat → Bool → Bool → Bool
  | [], depth, inClass, esc => !esc && !inClass && decide (depth = 0)
  | c :: rest, depth, inClass, esc =>
    if esc then regexScan rest depth inClass false
    else if c = '\\' then regexScan rest depth inClass true
    else if inClass then
      if c = ']' then regexScan rest depth false false
      else regexScan rest depth true false
    else if c = '[' then regexScan rest depth true false
    else if c = '(' then regexScan rest (depth + 1) false false
    else if c = ')' then
      match depth with
      | 0 => false
      | n + 1 => regexScan rest n false false
    else regexScan rest depth false false

/-- Validity of a regular-expression pattern (see `regexScan`). -/
def regexOk (p : List Char) : Bool := regexScan p 0 false false

/-- Splitting engine for `text.split(new RegExp('(' + term + ')', 'gi'))`
on keywords without regular-expression metacharacters: leftmost,
non-overlapping, case-insensitive occurrences of the keyword become
separator pieces, kept in the output with their original casing, and
empty between-pieces are kept as `String.prototype.split` keeps them.
The fuel argument bounds the recursion by the text length; every step
consumes at least one character when the pattern is nonempty (the empty
pattern is unreachable behind the `!searchTerm` guard). -/
def splitKeepAux (pat : List Char) : Nat → List Char → List Char → List (List Char)
  | 0, acc, rest => [acc.reverse ++ rest]
  | _ + 1, acc, [] => [acc.reverse]
  | fuel + 1, acc, c :: rest =>
    if isPrefixB (lowerChars pat) (lowerChars (c :: rest)) then
      acc.reverse :: (c :: rest).take pat.length ::
        splitKeepAux pat fuel [] ((c :: rest).drop pat.length)
    else splitKeepAux pat fuel (c :: acc) rest

/-- Case-insensitive split keeping separator pieces. -/
def jsSplitCI (hay pat : List Char) : List (List Char) :=
  splitKeepAux pat (hay.length + 1) [] hay

/-- Embedding of `createHighlightedElement` (src/main.ts:605-631) as the
segment list the produced DocumentFragment holds.  An empty search term
yields the whole text as one unhighlighted node.  Otherwise
`new RegExp('(' + searchTerm + ')', 'gi')` is constructed: when the
pattern is invalid this throws a SyntaxError, modelled as `Except.error`;
the matching itself is modelled for keywords that carry no
metacharacters, which is how the source means the keyword (its parts are
compared to the keyword as plain lowercased strings, line 620). -/
def createHighlightedElement (text searchTerm : String) :
    Except String (List Segment) :=
  if searchTerm.data.isEmpty then Except.ok [⟨text, false⟩]
  else if regexOk ('(' :: searchTerm.data ++ [')']) = false then
    Except.error "SyntaxError"
  else
    Except.ok ((jsSplitCI text.data searchTerm.data).map (fun part =>
      ⟨⟨part⟩, decide (lowerChars part = lowerChars searchTerm.data)⟩))

/-- Spec-side helper: the last `n` elements of a list, by position. -/
def lastN (n : Nat) (l : List Nat) : List Nat := l.drop (l.length - n)

/-- Spec-side helper: arithmetic mean of a list of counts, 0 for the
empty list. -/
def listMeanQ (l : List Nat) : ℚ :=
  if 0 < l.length then (l.sum : ℚ) / (l.length : ℚ) else 0

/-- Spec-side count for the current streak (spec §4.5): the number of
days reached walking backward from a day through the earlier unique days
(descending) while consecutive days differ by exactly one. -/
def backwardReach : Int → List Int → Nat
  | _, [] => 1
  | d, p :: rest => if d - p = 1 then 1 + backwardReach p rest else 1

/-- The pair (run in progress, best closed run) of the forward scan,
starting from a whole day list. -/
def scanPair : List Int → Nat × Nat
  | [] => (0, 0)
  | d :: rest => streakScan d 1 0 rest

/-- Length of the trailing consecutive-day run of a list, computed from
its reversed form by the backward walk. -/
def bwcOf (l : List Int) : Nat :=
  match l.reverse with
  | [] => 0
  | x :: rev => (backWalkFrom x rev).1

/-- Fixture: entries on days D, D+1 and D+3 (spec §8 streak gap
scenario), with D = 1970-01-01. -/
def gapEntries : List DiaryEntry :=
  [⟨"1", "a", "x", "1970-01-01", none⟩, ⟨"2", "b", "y", "1970-01-02", none⟩,
    ⟨"3", "c", "z", "1970-01-04", none⟩]

/-- Fixture: one entry per day for the 10 consecutive days ending on day
0 (= "today" for `now = 0`), plus one entry far outside the window. -/
def tenDayEntries : List DiaryEntry :=
  [⟨"1", "t", "c", "1969-12-23", none⟩, ⟨"2", "t", "c", "1969-12-24", none⟩,
    ⟨"3", "t", "c", "1969-12-25", none⟩, ⟨"4", "t", "c", "1969-12-26", none⟩,
    ⟨"5", "t", "c", "1969-12-27", none⟩, ⟨"6", "t", "c", "1969-12-28", none⟩,
    ⟨"7", "t", "c", "1969-12-29", none⟩, ⟨"8", "t", "c", "1969-12-30", none⟩,
    ⟨"9", "t", "c", "1969-12-31", none⟩, ⟨"10", "t", "c", "1970-01-01", none⟩,
    ⟨"11", "t", "c", "1969-01-01", none⟩]

/-- Fixture: an entry whose date text carries the localized markers but
matches no supported date form, so the spec normalizer rejects it while
the source's fallback turns it into the current instant. -/
def markerOnlyEntry : DiaryEntry := ⟨"1", "t", "c", "年月日", none⟩

/-- Fixture: entry with 2 characters of text. -/
def trendE1 : DiaryEntry := ⟨"1", "A", "x", "1970-01-01", none⟩

/-- Fixture: entry with 3 characters of text. -/
def trendE2 : DiaryEntry := ⟨"2", "A", "xy", "1970-01-02", none⟩

/-- Fixture: entry whose date matches neither supported form. -/
def badDateEntry : DiaryEntry := ⟨"1", "title", "content", "hello", none⟩

/-- Fixture: a single entry rated 3. -/
def moodEntry : DiaryEntry := ⟨"1", "t", "c", "d", some 3⟩

/-- Fixture: the literal example of spec §8, title "AB", content "CDE". -/
def abcdeEntry : DiaryEntry := ⟨"1", "AB", "CDE", "1970-01-01", none⟩

/-- Claim C9: for every entry collection, keyword and date bounds, the
filter's results are an ordered subsequence of the input, and with an
empty keyword and no bounds the filter returns the input unchanged with
`matchCount = totalCount`. -/
theorem c9_filter_order_and_identity (entries : List DiaryEntry)
    (searchInput : String) (dateFrom dateTo : Option Int) (now : Int) :
    List.Sublist (applyFilters entries searchInput dateFrom dateTo now).results entries
    ∧ (applyFilters entries "" none none now).results = entries
    ∧ (applyFilters entries "" none none now).matchCount
        = (applyFilters entries "" none none now).totalCount := by
  have hall : ∀ e ∈ entries,
      entryMatchesFilter now (trimChars (lowerChars "".data)) none none e = true :=
    fun e _ => rfl
  have hres : entries.filter
      (entryMatchesFilter now (trimChars (lowerChars "".data)) none none) = entries :=
    List.filter_eq_self.mpr hall
  exact ⟨List.filter_sublist entries, hres, congrArg List.length hres⟩

/-- Claim C1: the source's date normalization does not return an
explicit unparseable signal on failure — `parseJapaneseDate` substitutes
the current instant, while the spec-modelled normalizer rejects the same
input. -/
theorem c1_parse_falls_back_to_now :
    (∀ now : Int, parseJapaneseDate now "hello" = now)
    ∧ specNormalize "hello" = none :=
  ⟨fun _ => rfl, rfl⟩

/-- Claim C2: an entry whose date the spec normalizer rejects is not
excluded by the filter when a lower date bound is supplied — the
fallback date (the current instant, here 5 ms past the epoch) passes the
bound, so the entry stays in the results. -/
theorem c2_unparseable_passes_date_bound :
    (applyFilters [badDateEntry] "" (some 0) none 5).results = [badDateEntry]
    ∧ specNormalize badDateEntry.date = none :=
  ⟨by decide, rfl⟩

/-- Claim C6: highlight segmentation is not total — the keyword `(`
(lowercased and trimmed it reaches `createHighlightedElement` unchanged)
produces the invalid pattern `((` inside `new RegExp`, which throws a
SyntaxError instead of degrading. -/
theorem c6_highlight_throws_on_paren_keyword :
    createHighlightedElement "Hello" "(" = Except.error "SyntaxError" := rfl

/-- Claim C8 counterexample: `segment("Hello World", "world")` does not
return exactly the two claimed segments — `String.prototype.split` with
a trailing match keeps a final empty piece, so a third empty
non-matching segment is produced. -/
theorem c8_counterexample_two_segments :
    createHighlightedElement "Hello World" "world"
      ≠ Except.ok [⟨"Hello ", false⟩, ⟨"World", true⟩] := by
  intro h
  have h0 : createHighlightedElement "Hello World" "world"
      = Except.ok [⟨"Hello ", false⟩, ⟨"World", true⟩, ⟨"", false⟩] := rfl
  have h2 := Except.ok.inj (h0.symm.trans h)
  exact absurd h2 (by decide)

/-- Claim C8 amended: `segment("Hello World", "world")` yields the two
claimed segments followed by one empty non-matching segment (the
trailing empty piece `split` keeps), case-insensitively and with
original casing preserved; an empty keyword yields the whole text as a
single non-matching segment. -/
theorem c8_segment_segments :
    createHighlightedElement "Hello World" "world"
      = Except.ok [⟨"Hello ", false⟩, ⟨"World", true⟩, ⟨"", false⟩]
    ∧ ∀ t : String, createHighlightedElement t "" = Except.ok [⟨t, false⟩] :=
  ⟨rfl, fun _ => rfl⟩

theorem bumpKey_sumCounts (l : List (Int × Nat)) (m : Int) :
    sumCounts (bumpKey l m) = sumCounts l + 1 := by
  induction l with
  | nil => rfl
  | cons kc rest ih =>
    obtain ⟨k, c⟩ := kc
    by_cases h : k = m
    · simp only [bumpKey, if_pos h, sumCounts, List.map_cons, List.sum_cons]
      omega
    · simp only [bumpKey, if_neg h, sumCounts, List.map_cons, List.sum_cons]
      have := ih
      simp only [sumCounts] at this
      omega

theorem bumpKey_sumProducts (l : List (Int × Nat)) (m : Int) :
    sumProducts (bumpKey l m) = sumProducts l + m := by
  induction l with
  | nil => simp [bumpKey, sumProducts]
  | cons kc rest ih =>
    obtain ⟨k, c⟩ := kc
    by_cases h : k = m
    · simp only [bumpKey, if_pos h, sumProducts, List.map_cons, List.sum_cons]
      push_cast
      rw [h]
      ring
    · simp only [bumpKey, if_neg h, sumProducts, List.map_cons, List.sum_cons]
      have := ih
      simp only [sumProducts] at this
      omega

theorem moodFold_inv :
    ∀ (entries : List DiaryEntry) (acc : List (Int × Nat) × Nat),
      (∀ e ∈ entries, moodInRange e = true) →
      sumCounts acc.1 = acc.2 →
      (sumCounts acc.1 : Int) ≤ sumProducts acc.1 →
      sumProducts acc.1 ≤ 5 * (sumCounts acc.1 : Int) →
      sumCounts (entries.foldl moodStep acc).1 = (entries.foldl moodStep acc).2
      ∧ (sumCounts (entries.foldl moodStep acc).1 : Int)
          ≤ sumProducts (entries.foldl moodStep acc).1
      ∧ sumProducts (entries.foldl moodStep acc).1
          ≤ 5 * (sumCounts (entries.foldl moodStep acc).1 : Int) := by
  intro entries
  induction entries with
  | nil => exact fun acc _ h1 h2 h3 => ⟨h1, h2, h3⟩
  | cons e rest ih =>
    intro acc hm h1 h2 h3
    have hme := hm e (List.mem_cons_self e rest)
    simp only [List.foldl_cons]
    have hstep : sumCounts (moodStep acc e).1 = (moodStep acc e).2
        ∧ (sumCounts (moodStep acc e).1 : Int) ≤ sumProducts (moodStep acc e).1
        ∧ sumProducts (moodStep acc e).1
            ≤ 5 * (sumCounts (moodStep acc e).1 : Int) := by
      cases hmood : e.mood with
      | none =>
        have hs : moodStep acc e = acc := by
          unfold moodStep
          rw [hmood]
        rw [hs]
        exact ⟨h1, h2, h3⟩
      | some m =>
        have hrange : 1 ≤ m ∧ m ≤ 5 := by
          unfold moodInRange at hme
          rw [hmood] at hme
          exact of_decide_eq_true hme
        have hm0 : ¬ m = 0 := by omega
        have hs : moodStep acc e = (bumpKey acc.1 m, acc.2 + 1) := by
          unfold moodStep
          rw [hmood]
          simp [hm0]
        rw [hs]
        refine ⟨?_, ?_, ?_⟩ <;>
          simp only [bumpKey_sumCounts, bumpKey_sumProducts] <;> omega
    exact ih (moodStep acc e) (fun x hx => hm x (List.mem_cons_of_mem e hx))
      hstep.1 hstep.2.1 hstep.2.2

/-- Claim C5: when every rated mood lies in 1..5, the mood average is
the weighted sum of ratings divided by the number of rated entries and
lies in [1, 5] whenever at least one entry is rated; with no rated
entries it is exactly 0. -/
theorem c5_mood_average (entries : List DiaryEntry)
    (h : entries.all moodInRange = true) :
    (0 < (getMoodStats entries).total →
      (getMoodStats entries).average
        = (sumProducts (getMoodStats entries).counts : ℚ)
            / ((getMoodStats entries).total : ℚ)
      ∧ 1 ≤ (getMoodStats entries).average
      ∧ (getMoodStats entries).average ≤ 5)
    ∧ ((getMoodStats entries).total = 0 → (getMoodStats entries).average = 0) := by
  have hm : ∀ e ∈ entries, moodInRange e = true := List.all_eq_true.mp h
  obtain ⟨h1, h2, h3⟩ := moodFold_inv entries ([], 0) hm rfl
    (by simp [sumCounts, sumProducts]) (by simp [sumCounts, sumProducts])
  have htot : (getMoodStats entries).total = (entries.foldl moodStep ([], 0)).2 := rfl
  have hcnt : (getMoodStats entries).counts = (entries.foldl moodStep ([], 0)).1 := rfl
  have havg : (getMoodStats entries).average
      = if 0 < (entries.foldl moodStep ([], 0)).2
        then (sumProducts (entries.foldl moodStep ([], 0)).1 : ℚ)
          / ((entries.foldl moodStep ([], 0)).2 : ℚ)
        else 0 := rfl
  constructor
  · intro hpos
    rw [htot] at hpos
    rw [havg, if_pos hpos, hcnt, htot]
    refine ⟨rfl, ?_, ?_⟩
    · rw [one_le_div (by exact_mod_cast hpos)]
      rw [← h1]
      exact_mod_cast h2
    · rw [div_le_iff₀ (by exact_mod_cast hpos)]
      rw [← h1]
      calc (sumProducts (entries.foldl moodStep ([], 0)).1 : ℚ)
          ≤ ((5 * (sumCounts (entries.foldl moodStep ([], 0)).1 : Int) : Int) : ℚ) := by
            exact_mod_cast h3
        _ = 5 * ((sumCounts (entries.foldl moodStep ([], 0)).1 : Int) : ℚ) := by
            push_cast
            ring
  · intro h0
    rw [htot] at h0
    rw [havg, if_neg (by omega)]

/-- Witness for C5 at a single entry rated 3. -/
theorem c5_mood_average_witness :
    ([moodEntry].all moodInRange = true)
    ∧ 1 ≤ (getMoodStats [moodEntry]).average
    ∧ (getMoodStats [moodEntry]).average ≤ 5 :=
  ⟨by decide,
    ((c5_mood_average [moodEntry] (by decide)).1 (by decide)).2.1,
    ((c5_mood_average [moodEntry] (by decide)).1 (by decide)).2.2⟩

theorem recentAverage_eq (now : Int) (entries : List DiaryEntry) :
    (getCharacterTrends now entries).recentAverage
      = jsRound (listMeanQ (lastN 7 ((trendPoints now entries).map (fun t => t.count)))) := by
  have hmap : ((trendPoints now entries).map (fun t => t.count)).drop
        (((trendPoints now entries).map (fun t => t.count)).length - 7)
      = ((trendPoints now entries).drop ((trendPoints now entries).length - 7)).map
          (fun t => t.count) := by
    rw [List.length_map, ← List.map_drop]
  unfold listMeanQ lastN
  rw [hmap]
  rfl

/-- Claim C7 amended: each trend point's character count is
`title.length + content.length` (title "AB", content "CDE" giving 5),
and `recentAverage` is the mean of the last 7 counts of the sorted
series (all of them when fewer) rounded with `Math.round` — the source
rounds the mean, it does not report it exactly. -/
theorem c7_character_trend (now : Int) (entries : List DiaryEntry) :
    ((getCharacterTrends now entries).trends.map (fun t => t.count)
        = (sortedValid now entries).map (fun e => e.title.length + e.content.length))
    ∧ ((getCharacterTrends now entries).recentAverage
        = jsRound (listMeanQ (lastN 7
            ((getCharacterTrends now entries).trends.map (fun t => t.count)))))
    ∧ ((getCharacterTrends 0 [abcdeEntry]).trends.map (fun t => t.count) = [5]) := by
  refine ⟨?_, ?_, by decide⟩
  · show (trendPoints now entries).map (fun t => t.count) = _
    unfold trendPoints
    rw [List.map_map]
    rfl
  · exact recentAverage_eq now entries

/-- Claim C7 counterexample: with two entries of 2 and 3 characters the
mean of the last counts is 5/2, but the source reports the rounded value
3, so `recentAverage` does not equal the mean. -/
theorem c7_counterexample_rounded_mean :
    ((getCharacterTrends 0 [trendE1, trendE2]).recentAverage : ℚ)
      ≠ listMeanQ (lastN 7
          ((getCharacterTrends 0 [trendE1, trendE2]).trends.map (fun t => t.count))) := by
  have hc : (getCharacterTrends 0 [trendE1, trendE2]).trends.map (fun t => t.count)
      = [2, 3] := by decide
  have hmean : listMeanQ (lastN 7 [2, 3]) = 5 / 2 := by
    unfold listMeanQ lastN
    norm_num
  have hra : (getCharacterTrends 0 [trendE1, trendE2]).recentAverage = 3 := by
    rw [recentAverage_eq]
    have hc2 : (trendPoints 0 [trendE1, trendE2]).map (fun t => t.count) = [2, 3] := hc
    rw [hc2, hmean]
    unfold jsRound
    rw [show (5 / 2 + 1 / 2 : ℚ) = ((3 : Int) : ℚ) by norm_num]
    exact Int.floor_intCast 3
  rw [hra, hc, hmean]
  norm_num

theorem msDay_shift (t j : Int) : msDay (t + j * msPerDay) = msDay t + j := by
  unfold msDay msPerDay
  rw [Int.fdiv_eq_ediv _ (by norm_num), Int.fdiv_eq_ediv _ (by norm_num),
    Int.add_mul_ediv_right _ _ (by norm_num)]

theorem windowDaysList_eq (now : Int) :
    windowDaysList now
      = (List.range 31).map (fun i : Nat => msDay now - 30 + (i : Int)) := by
  unfold windowDaysList
  apply List.map_congr_left
  intro i _
  rw [show now - 30 * msPerDay + (i : Int) * msPerDay
      = now + ((i : Int) - 30) * msPerDay by ring, msDay_shift]
  ring

theorem windowDaysList_nodup (now : Int) : (windowDaysList now).Nodup := by
  rw [windowDaysList_eq]
  have hinj : Function.Injective (fun i : Nat => msDay now - 30 + (i : Int)) := by
    intro a b hab
    simp only at hab
    omega
  exact List.Nodup.map hinj (List.nodup_range 31)

theorem bumpExisting_map (keys : List Int) (f : Int → Nat) (d : Int)
    (hnd : keys.Nodup) :
    bumpExisting (keys.map (fun k => (k, f k))) d
      = keys.map (fun k => (k, if k = d then f k + 1 else f k)) := by
  induction keys with
  | nil => rfl
  | cons k0 ks ih =>
    simp only [List.map_cons, bumpExisting]
    by_cases h : k0 = d
    · rw [if_pos h, if_pos h]
      congr 1
      apply List.map_congr_left
      intro k hk
      have hkd : ¬ k = d := fun he => (List.nodup_cons.mp hnd).1 (h ▸ he ▸ hk)
      rw [if_neg hkd]
    · rw [if_neg h, if_neg h, ih (List.nodup_cons.mp hnd).2]

theorem freqFold_count (now : Int) :
    ∀ (entries : List DiaryEntry) (keys : List Int) (f : Int → Nat),
      keys.Nodup →
      entries.foldl (fun acc e =>
          match entryDateMs now e.date with
          | some t => bumpExisting acc (msDay t)
          | none => acc) (keys.map (fun k => (k, f k)))
        = keys.map (fun k => (k, f k + entries.countP
            (fun e => decide ((entryDateMs now e.date).map msDay = some k)))) := by
  intro entries
  induction entries with
  | nil =>
    intro keys f _
    simp [List.countP_nil]
  | cons e rest ih =>
    intro keys f hnd
    simp only [List.foldl_cons]
    cases hd : entryDateMs now e.date with
    | none =>
      dsimp only
      rw [ih keys f hnd]
      apply List.map_congr_left
      intro k _
      have hp : (decide ((entryDateMs now e.date).map msDay = some k)) = false := by
        rw [hd]
        simp
      have hcnt : List.countP
            (fun e => decide ((entryDateMs now e.date).map msDay = some k)) (e :: rest)
          = List.countP
            (fun e => decide ((entryDateMs now e.date).map msDay = some k)) rest := by
        rw [List.countP_cons, hp]
        rfl
      rw [hcnt]
    | some t =>
      dsimp only
      rw [bumpExisting_map keys f (msDay t) hnd,
        ih keys (fun k => if k = msDay t then f k + 1 else f k) hnd]
      apply List.map_congr_left
      intro k _
      by_cases hk : k = msDay t
      · have hp : (decide ((entryDateMs now e.date).map msDay = some k)) = true := by
          rw [hd, hk]
          simp
        have hcnt : List.countP
              (fun e => decide ((entryDateMs now e.date).map msDay = some k)) (e :: rest)
            = List.countP
              (fun e => decide ((entryDateMs now e.date).map msDay = some k)) rest + 1 := by
          rw [List.countP_cons, hp]
          rfl
        rw [hcnt, if_pos hk]
        simp only [Prod.mk.injEq, true_and]
        omega
      · have hp : (decide ((entryDateMs now e.date).map msDay = some k)) = false := by
          rw [hd]
          simp
          exact fun he => hk he.symm
        have hcnt : List.countP
              (fun e => decide ((entryDateMs now e.date).map msDay = some k)) (e :: rest)
            = List.countP
              (fun e => decide ((entryDateMs now e.date).map msDay = some k)) rest := by
          rw [List.countP_cons, hp]
          rfl
        rw [hcnt, if_neg hk]

/-- Claim C3 counterexample: an entry whose date text is `年月日` has no
parseable calendar day (the spec normalizer rejects it), yet the
current-day bucket of the frequency histogram counts it — the localized
branch falls back to `new Date()`, which lands in the window. -/
theorem c3_counterexample_unparseable_bucketed :
    lookupCount (getPostFrequencyStats 0 [markerOnlyEntry]).daily 0 = 1
    ∧ specNormalize markerOnlyEntry.date = none :=
  ⟨by decide, rfl⟩

/-- Claim C3 amended: `totalPosts` counts all entries and
`averagePerDay = totalPosts / 31` (the bucket count); each daily bucket
counts the entries whose source-normalized day equals the bucket's day,
where normalization falls back to the current instant for dates carrying
the localized markers that fail the full pattern (so such entries land
in the current day's bucket instead of being skipped); in the 10-day
scenario the bucket values sum to 10 while `totalPosts` is the full
entry count 11. -/
theorem c3_frequency_stats (now : Int) (entries : List DiaryEntry) :
    (getPostFrequencyStats now entries).totalPosts = entries.length
    ∧ (getPostFrequencyStats now entries).daily
        = (windowDaysList now).map (fun k => (k, entries.countP
            (fun e => decide ((entryDateMs now e.date).map msDay = some k))))
    ∧ (getPostFrequencyStats now entries).averagePerDay
        = ((getPostFrequencyStats now entries).totalPosts : ℚ) / 31
    ∧ ((getPostFrequencyStats 0 tenDayEntries).daily.map Prod.snd).sum = 10
    ∧ (getPostFrequencyStats 0 tenDayEntries).totalPosts = 11 := by
  have hdaily : (getPostFrequencyStats now entries).daily
      = (windowDaysList now).map (fun k => (k, entries.countP
          (fun e => decide ((entryDateMs now e.date).map msDay = some k)))) := by
    have h0 := freqFold_count now entries (windowDaysList now) (fun _ => 0)
      (windowDaysList_nodup now)
    simp only [Nat.zero_add] at h0
    exact h0
  refine ⟨rfl, hdaily, ?_, by decide, rfl⟩
  have hlen31 : (((getPostFrequencyStats now entries).daily.length : Nat) : ℚ) = 31 := by
    rw [hdaily]
    rw [List.length_map, windowDaysList_eq, List.length_map, List.length_range]
    norm_num
  have havg : (getPostFrequencyStats now entries).averagePerDay
      = if 0 < entries.length
        then (entries.length : ℚ)
          / (((getPostFrequencyStats now entries).daily.length : Nat) : ℚ)
        else 0 := rfl
  rw [havg]
  by_cases hl : 0 < entries.length
  · rw [if_pos hl, hlen31]
    rfl
  · rw [if_neg hl]
    have hz : entries.length = 0 := by omega
    show (0 : ℚ) = ((entries.length : Nat) : ℚ) / 31
    rw [hz]
    norm_num

theorem backWalkFrom_fst (l : List Int) :
    ∀ d : Int, (backWalkFrom d l).1 = backwardReach d l := by
  induction l with
  | nil => intro d; rfl
  | cons p rest ih =>
    intro d
    by_cases h : d - p = 1
    · simp [backWalkFrom, backwardReach, h, ih p]
      omega
    · simp [backWalkFrom, backwardReach, h]

theorem streakScan_le (rest : List Int) : ∀ (prev : Int) (cur mx : Nat),
    (streakScan prev cur mx rest).1 ≤ cur + rest.length
    ∧ (streakScan prev cur mx rest).2 ≤ max mx (cur + rest.length) := by
  induction rest with
  | nil =>
    intro prev cur mx
    constructor
    · simp [streakScan]
    · simp only [streakScan, List.length_nil]
      omega
  | cons d r ih =>
    intro prev cur mx
    by_cases h : d - prev = 1
    · simp only [streakScan, if_pos h, List.length_cons]
      obtain ⟨a, b⟩ := ih d (cur + 1) mx
      exact ⟨a.trans (by omega), b.trans (by omega)⟩
    · simp only [streakScan, if_neg h, List.length_cons]
      obtain ⟨a, b⟩ := ih d 1 (max mx cur)
      exact ⟨a.trans (by omega), b.trans (by omega)⟩

theorem streakScan_append (x : Int) (l : List Int) : ∀ (prev : Int) (cur mx : Nat),
    streakScan prev cur mx (l ++ [x])
      = (if x - l.getLastD prev = 1
         then ((streakScan prev cur mx l).1 + 1, (streakScan prev cur mx l).2)
         else (1, max (streakScan prev cur mx l).2 (streakScan prev cur mx l).1)) := by
  induction l with
  | nil =>
    intro prev cur mx
    simp only [List.nil_append, List.getLastD_nil]
    by_cases h : x - prev = 1
    · simp only [streakScan, if_pos h]
    · simp only [streakScan, if_neg h]
  | cons d r ih =>
    intro prev cur mx
    simp only [List.cons_append, streakScan, List.getLastD_cons]
    by_cases h : d - prev = 1
    · simp only [if_pos h]
      exact ih d (cur + 1) mx
    · simp only [if_neg h]
      exact ih d 1 (max mx cur)

theorem scanPair_append (l : List Int) (x : Int) (hl : l ≠ []) :
    scanPair (l ++ [x])
      = (if x - l.getLastD 0 = 1
         then ((scanPair l).1 + 1, (scanPair l).2)
         else (1, max (scanPair l).2 (scanPair l).1)) := by
  match l, hl with
  | d :: rest, _ =>
    simp only [List.cons_append, scanPair, List.getLastD_cons]
    exact streakScan_append x rest d 1 0

theorem scanPair_fst_eq_bwc (l : List Int) : (scanPair l).1 = bwcOf l := by
  induction l using List.reverseRecOn with
  | nil => rfl
  | append_singleton C x ih =>
    by_cases hC : C = []
    · subst hC
      rfl
    · rw [scanPair_append C x hC]
      obtain ⟨q, qs, hrev⟩ : ∃ q qs, C.reverse = q :: qs := by
        cases hr : C.reverse with
        | nil => exact absurd (by simpa using congrArg List.reverse hr) hC
        | cons a b => exact ⟨a, b, rfl⟩
      have hlast : C.getLastD 0 = q := by
        have h1 : C.getLast? = some q := by
          rw [← List.head?_reverse, hrev]
          rfl
        rw [List.getLastD_eq_getLast?, h1]
        rfl
      have hbw : bwcOf (C ++ [x])
          = if x - q = 1 then (backWalkFrom q qs).1 + 1 else 1 := by
        unfold bwcOf
        rw [List.reverse_append, hrev]
        simp only [List.reverse_cons, List.reverse_nil, List.nil_append,
          List.singleton_append]
        by_cases hq : x - q = 1
        · simp [backWalkFrom, hq]
        · simp [backWalkFrom, hq]
      have hihq : (scanPair C).1 = (backWalkFrom q qs).1 := by
        rw [ih]
        unfold bwcOf
        rw [hrev]
      rw [hlast, hbw]
      by_cases hq : x - q = 1
      · rw [if_pos hq, if_pos hq]
        simp [hihq]
      · rw [if_neg hq, if_neg hq]

theorem computeMaxStreak_eq (l : List Int) :
    computeMaxStreak l = max (scanPair l).2 (scanPair l).1 := by
  cases l with
  | nil => rfl
  | cons d rest => rfl

theorem scanPair_le_length (l : List Int) :
    (scanPair l).1 ≤ l.length ∧ (scanPair l).2 ≤ l.length := by
  cases l with
  | nil => exact ⟨Nat.le_refl 0, Nat.le_refl 0⟩
  | cons d rest =>
    obtain ⟨a, b⟩ := streakScan_le rest d 1 0
    simp only [List.length_cons]
    exact ⟨a.trans (by omega), b.trans (by omega)⟩

/-- Claim C4: the current streak is zero unless the last posted day is
today or yesterday relative to the reference instant, and when alive it
is the backward walk count through the sorted unique-day set; on days D,
D+1, D+3 evaluated at D+3 the max streak is 2 and the current streak
is 1. -/
theorem c4_current_streak (now : Int) (entries : List DiaryEntry) :
    ((getContinuousDaysStats now entries).currentStreak =
      match (uniqueDays now entries).reverse with
      | [] => 0
      | last :: rev =>
        if last = msDay now ∨ last = msDay (now - msPerDay)
        then backwardReach last rev
        else 0)
    ∧ (getContinuousDaysStats (3 * msPerDay) gapEntries).maxStreak = 2
    ∧ (getContinuousDaysStats (3 * msPerDay) gapEntries).currentStreak = 1 := by
  refine ⟨?_, by decide, by decide⟩
  unfold getContinuousDaysStats
  by_cases he : entries.isEmpty
  · rw [if_pos he]
    have hemp : entries = [] := List.isEmpty_iff.mp he
    subst hemp
    rfl
  · rw [if_neg he]
    unfold streakFromDays
    cases hrev : (uniqueDays now entries).reverse with
    | nil => rfl
    | cons last rev =>
      dsimp only
      by_cases ha : (last = msDay now ∨ last = msDay (now - msPerDay))
      · rw [if_pos ha, if_pos ha, backWalkFrom_fst]
      · rw [if_neg ha, if_neg ha]

/-- Claim C10: the streak statistics always satisfy
`currentStreak ≤ maxStreak ≤ totalDaysPosted` (and all are natural
numbers, hence nonnegative): the live trailing run is one of the scanned
runs, and no run is longer than the number of distinct posted days. -/
theorem c10_streak_bounds (now : Int) (entries : List DiaryEntry) :
    (getContinuousDaysStats now entries).currentStreak
        ≤ (getContinuousDaysStats now entries).maxStreak
    ∧ (getContinuousDaysStats now entries).maxStreak
        ≤ (getContinuousDaysStats now entries).totalDaysPosted := by
  unfold getContinuousDaysStats
  by_cases he : entries.isEmpty
  · rw [if_pos he]
    exact ⟨Nat.le_refl 0, Nat.le_refl 0⟩
  · rw [if_neg he]
    unfold streakFromDays
    cases hrev : (uniqueDays now entries).reverse with
    | nil => exact ⟨Nat.le_refl 0, Nat.le_refl 0⟩
    | cons last rev =>
      dsimp only
      constructor
      · by_cases ha : (last = msDay now ∨ last = msDay (now - msPerDay))
        · rw [if_pos ha]
          have h1 : (backWalkFrom last rev).1 = bwcOf (uniqueDays now entries) := by
            unfold bwcOf
            rw [hrev]
          rw [h1, ← scanPair_fst_eq_bwc, computeMaxStreak_eq]
          exact le_max_right _ _
        · rw [if_neg ha]
          exact Nat.zero_le _
      · rw [computeMaxStreak_eq]
        have h2 := scanPair_le_length (uniqueDays now entries)
        exact max_le h2.2 h2.1

/-- Calibration of the calendar embedding at known dates. -/
theorem daysFromCivil_calibration :
    daysFromCivil 1970 1 1 = 0 ∧ daysFromCivil 1969 12 31 = -1
    ∧ daysFromCivil 2000 3 1 = 11017
    ∧ jsParseDate "1970-01-02" = some msPerDay
    ∧ jsParseDate "2024-02-30" = none := by
  refine ⟨by decide, by decide, by decide, by decide, by decide⟩

/-- Calibration of the localized date matcher: a match builds the civil
date, a failed or backtrack-exhausted match yields the `now` fallback. -/
theorem parseJapaneseDate_calibration :
    parseJapaneseDate 77 "2024年3月5日" = daysFromCivil 2024 3 5 * msPerDay
    ∧ parseJapaneseDate 77 "2024年123月4日" = 77
    ∧ specNormalize "年月日" = none := by
  refine ⟨by decide, by decide, by decide⟩
